import Mathlib

/-!
Verification development for the conversation-orchestration and
context-retrieval core of the product-investigator backend.

The definitions below are shallow embeddings of the Python source:

* `ConversationState`, `stateOrder` — the category enumeration and the
  `STATE_ORDER` lists of `services/conversation_service.py` and
  `services/question_generator.py` (the enum itself lives in the absent
  `models/conversation.py`; its members are fixed by both `STATE_ORDER`
  lists and the spec's category order).
* `determineNextStateQG` — `QuestionGenerator._determine_next_state`.
* `getNextStateCS` — `ConversationService._get_next_state`.
* `needsFollowup` — `QuestionGenerator._needs_followup`.
* `RAGService` operations — `persist_interaction`, `retrieve_context`,
  `update_interaction`, `_deduplicate_chunks`, `_estimate_tokens`, with
  the ChromaDB collection modelled as a list of stored chunks and the
  embedding distance supplied as an abstract per-query function; float
  arithmetic is modelled over ℚ.
* `processAnswer`, `skipCurrentQuestion` — the per-session paths of
  `ConversationService.process_answer` / `skip_current_question`.
-/

/- Rational arithmetic is `@[irreducible]` in Batteries; witnesses and
counterexamples below evaluate concrete scores by kernel reduction, so the
arithmetic is restored to its definitional behaviour here. -/
set_option allowUnsafeReducibility true in
attribute [semireducible] Rat.mul Rat.add Rat.sub Rat.inv

/-- The conversation category enumeration. Modelled from the spec: the
`ConversationState` enum is declared in `models/conversation.py`, which is
not in the sources; its nine members and their order are fixed by the
identical `STATE_ORDER` lists in `conversation_service.py` and
`question_generator.py`. -/
inductive ConversationState where
  | START
  | FUNCTIONALITY
  | USERS
  | DEMOGRAPHICS
  | DESIGN
  | MARKET
  | TECHNICAL
  | REVIEW
  | COMPLETE
deriving DecidableEq, Repr

open ConversationState

/-- `STATE_ORDER` of `ConversationService` (and `state_order` of
`QuestionGenerator` — the two lists are identical in the source). -/
def stateOrder : List ConversationState :=
  [START, FUNCTIONALITY, USERS, DEMOGRAPHICS, DESIGN, MARKET, TECHNICAL, REVIEW, COMPLETE]

/-- A value handed to the next-state functions. Python is untyped: the
`list.index` call either finds a member of the enumeration or raises
`ValueError`; `outside` stands for any value not equal to any member. -/
inductive StateInput where
  | member : ConversationState → StateInput
  | outside : String → StateInput
deriving DecidableEq, Repr

/-- Position of a category in `stateOrder` (`list.index`, which always
succeeds for enumeration members). -/
def stateIdx (c : ConversationState) : Nat :=
  stateOrder.indexOf c

/-- `QuestionGenerator._determine_next_state`: `state_order.index` inside a
`try`; on `ValueError` (value outside the enumeration) return `START`;
if `current_idx + 1 < len(state_order)` return the successor, else fall
through to the final `return ConversationState.COMPLETE`. -/
def determineNextStateQG (s : StateInput) : ConversationState :=
  match s with
  | .outside _ => START
  | .member c =>
      let currentIdx := stateOrder.indexOf c
      if currentIdx + 1 < stateOrder.length then
        stateOrder.getD (currentIdx + 1) COMPLETE
      else
        COMPLETE

/-- `ConversationService._get_next_state`: same successor lookup, but its
`except ValueError` block only logs — control falls through to the final
`return ConversationState.COMPLETE` for values outside the enumeration. -/
def getNextStateCS (s : StateInput) : ConversationState :=
  match s with
  | .outside _ => COMPLETE
  | .member c =>
      let currentIdx := stateOrder.indexOf c
      if currentIdx + 1 < stateOrder.length then
        stateOrder.getD (currentIdx + 1) COMPLETE
      else
        COMPLETE

/-- The successor in the fixed order, written out constructor by
constructor; proofs use it to evaluate the two next-state functions. -/
def stateSucc : ConversationState → ConversationState
  | START => FUNCTIONALITY
  | FUNCTIONALITY => USERS
  | USERS => DEMOGRAPHICS
  | DEMOGRAPHICS => DESIGN
  | DESIGN => MARKET
  | MARKET => TECHNICAL
  | TECHNICAL => REVIEW
  | REVIEW => COMPLETE
  | COMPLETE => COMPLETE

/-- `QuestionGenerator.min_answer_words`. -/
def minAnswerWords : Nat := 10

/-- `vague_indicators` of `QuestionGenerator._needs_followup`, in source
order. -/
def vagueIndicators : List String :=
  ["i don't know", "not sure", "maybe", "possibly", "whatever", "anything", "doesn't matter"]

/-- Python `str.lower()` (ASCII case folding, which covers every marker). -/
def lowerStr (s : String) : String :=
  String.mk (s.toList.map Char.toLower)

/-- Python `needle in hay` — substring containment. -/
def strContains (needle hay : String) : Bool :=
  hay.toList.tails.any (fun t => needle.toList.isPrefixOf t)

/-- Python `str.split()` with no separator: split on whitespace runs,
dropping empty pieces; `wordCount` is `len(answer.split())`. -/
def wordCount (s : String) : Nat :=
  ((s.toList.splitOnP Char.isWhitespace).filter (fun w => w ≠ [])).length

/-- `QuestionGenerator._needs_followup`: never in REVIEW; otherwise true
when the word count is below `min_answer_words` or the lowercased answer
contains a vague indicator. -/
def needsFollowup (answer : String) (currentState : ConversationState) : Bool :=
  if currentState = REVIEW then
    false
  else if wordCount answer < minAnswerWords then
    true
  else if vagueIndicators.any (fun ind => strContains ind (lowerStr answer)) then
    true
  else
    false

/-- The follow-up rule as the spec words it (claim C3): REVIEW never;
otherwise exactly when the word count is below the threshold or the
lowercased answer contains one of the markers, listed in the spec's
order. -/
def needsFollowupSpec (answer : String) (currentState : ConversationState) : Bool :=
  decide (currentState ≠ REVIEW) &&
    (decide (wordCount answer < 10) ||
      ["not sure", "maybe", "i don't know", "whatever", "doesn't matter", "possibly",
        "anything"].any (fun m => strContains m (lowerStr answer)))

/-- `ConversationService._needs_followup` (the legacy path used when no
`QuestionGenerator` is injected): fewer than 15 words. -/
def needsFollowupCS (answer : String) : Bool :=
  decide (wordCount answer < 15)

/-- A record of the ChromaDB `conversations` collection: id, document,
`session_id` and `timestamp` metadata. Timestamps are modelled as rational
seconds since the epoch (the source stores ISO strings of `utcnow`). -/
structure StoredChunk where
  chunkId : String
  sessionId : String
  doc : String
  timestamp : ℚ
deriving DecidableEq, Repr

/-- `RAGService._estimate_tokens`: `len(text) // 4`. -/
def estimateTokens (text : String) : Nat :=
  text.length / 4

/-- The combined document text `f"Q: {question}\nA: {answer}"` built
by `persist_interaction` and `update_interaction`. -/
def combinedText (question answer : String) : String :=
  "Q: " ++ question ++ "\nA: " ++ answer

/-- `RAGService.persist_interaction` as it acts on the collection: append
one chunk whose id is `f"{session_id}_{timestamp}"`, carrying the session
id, the combined text and the timestamp. (The markdown side effect and the
embedding vector are outside the collection model.) -/
def persistInteraction (index : List StoredChunk) (sessionId question answer : String)
    (now : ℚ) : String × List StoredChunk :=
  let chunkId := sessionId ++ "_" ++ toString now
  (chunkId, index ++ [⟨chunkId, sessionId, combinedText question answer, now⟩])

/-- Stable insertion for a total preorder test `le`: `x` goes before the
first element `y` with `le x y`. Mirrors the stability of Python's sort
(`reverse=True` included): equal keys keep their original order. -/
def insertLe {α : Type} (le : α → α → Bool) (x : α) : List α → List α
  | [] => [x]
  | y :: ys => if le x y then x :: y :: ys else y :: insertLe le x ys

/-- Stable sort by `le` (insertion sort; any stable sort agrees with
Python's Timsort on a total preorder). -/
def sortLe {α : Type} (le : α → α → Bool) : List α → List α
  | [] => []
  | x :: xs => insertLe le x (sortLe le xs)

/-- A nearest-neighbour candidate: a stored chunk with its distance to the
query embedding. -/
structure Candidate where
  chunk : StoredChunk
  distance : ℚ
deriving DecidableEq, Repr

/-- `self.collection.query(..., n_results, where={"session_id": session_id})`:
the chunks of the session, by ascending distance (ties in store order),
capped at `n_results`. Distances come from the abstract embedding as the
per-query function `dist`. -/
def queryCollection (index : List StoredChunk) (dist : StoredChunk → ℚ) (sessionId : String)
    (nResults : Nat) : List Candidate :=
  (sortLe (fun a b => a.distance ≤ b.distance)
      ((index.filter (fun c => decide (c.sessionId = sessionId))).map
        (fun c => ⟨c, dist c⟩))).take nResults

/-- A candidate with its recency-blended score (the `scored_chunks`
entries of `retrieve_context`). -/
structure Scored where
  chunk : StoredChunk
  score : ℚ
deriving DecidableEq, Repr

/-- The score computation of `retrieve_context`:
`age_hours = age_seconds / 3600`, `recency = 1 / (1 + age_hours / 24)`,
`similarity = 1 - distance`,
`score = (1 - recency_weight) * similarity + recency_weight * recency`. -/
def scoreCandidate (now recencyWeight : ℚ) (c : Candidate) : Scored :=
  let ageSeconds := now - c.chunk.timestamp
  let ageHours := ageSeconds / 3600
  let recencyFactor := 1 / (1 + ageHours / 24)
  let similarityScore := 1 - c.distance
  ⟨c.chunk, (1 - recencyWeight) * similarityScore + recencyWeight * recencyFactor⟩

/-- The greedy token-budget loop of `retrieve_context`: walk the sorted
chunks, keep one while `total_tokens + chunk_tokens <= max_tokens`, and
`break` at the first overflow. -/
def selectWithinBudget (maxTokens : Nat) : List Scored → Nat → List String
  | [], _ => []
  | s :: rest, totalTokens =>
    let chunkTokens := estimateTokens s.chunk.doc
    if totalTokens + chunkTokens ≤ maxTokens then
      s.chunk.doc :: selectWithinBudget maxTokens rest (totalTokens + chunkTokens)
    else
      []

/-- `RAGService._deduplicate_chunks`: drop a chunk whose content hash was
already seen, keeping order. The md5 hash is modelled as injective, so the
seen set is a set of contents. -/
def dedupGo (seen : List String) : List String → List String
  | [] => []
  | c :: cs => if c ∈ seen then dedupGo seen cs else c :: dedupGo (c :: seen) cs

/-- `RAGService._deduplicate_chunks` entry point. -/
def deduplicateChunks (chunks : List String) : List String :=
  dedupGo [] chunks

/-- The order in which `retrieve_context` considers candidates before the
token-budget loop: the scored candidates after
`scored_chunks.sort(key=lambda x: x[1], reverse=True)` — a stable sort by
score descending. -/
def considerationOrder (index : List StoredChunk) (dist : StoredChunk → ℚ) (now : ℚ)
    (sessionId : String) (topK : Nat) (recencyWeight : ℚ) : List Scored :=
  sortLe (fun a b => decide (b.score ≤ a.score))
    ((queryCollection index dist sessionId (min (topK * 2) 50)).map
      (scoreCandidate now recencyWeight))

/-- `RAGService.retrieve_context`: query the collection for
`min(top_k * 2, 50)` session-filtered neighbours, score them, sort by
score descending (Python's stable sort), take `top_k`, accumulate under
the token budget, then deduplicate. -/
def retrieveContext (index : List StoredChunk) (dist : StoredChunk → ℚ) (now : ℚ)
    (sessionId : String) (topK maxTokens : Nat) (recencyWeight : ℚ) : List String :=
  if (queryCollection index dist sessionId (min (topK * 2) 50)).isEmpty then
    []
  else
    deduplicateChunks
      (selectWithinBudget maxTokens
        ((considerationOrder index dist now sessionId topK recencyWeight).take topK) 0)

/-- `RAGService.update_interaction`: fetch the session's chunks; fail if
there are none; find the first whose document contains `question` (the
source matches by question only — `old_answer` is unused for matching,
exactly as in the code, where `old_combined_text` is computed but never
compared); delete it by id and append one fresh chunk built from
`question` and `new_answer`. -/
def updateInteraction (index : List StoredChunk) (sessionId question oldAnswer newAnswer : String)
    (now : ℚ) : Bool × List StoredChunk :=
  let sessionChunks := index.filter (fun c => decide (c.sessionId = sessionId))
  if sessionChunks.isEmpty then
    (false, index)
  else
    match sessionChunks.find? (fun c => strContains question c.doc) with
    | none => (false, index)
    | some target =>
        let afterDelete := index.filter (fun c => decide (c.chunkId ≠ target.chunkId))
        let newChunk : StoredChunk :=
          ⟨sessionId ++ "_" ++ toString now ++ "_edited", sessionId,
            combinedText question newAnswer, now⟩
        (true, afterDelete ++ [newChunk])

/-- `delete_session_chunks`: remove every chunk of the session, returning
the count removed. -/
def deleteSessionChunks (index : List StoredChunk) (sessionId : String) :
    Nat × List StoredChunk :=
  let sessionChunks := index.filter (fun c => decide (c.sessionId = sessionId))
  (sessionChunks.length, index.filter (fun c => decide (c.sessionId ≠ sessionId)))

/-- Message roles (`MessageRole` of the absent `models/conversation.py`,
whose three members are fixed by their uses in the sources). -/
inductive MessageRole where
  | system
  | user
  | assistant
deriving DecidableEq, Repr

/-- A conversation message with the metadata fields the orchestrator
reads: `question_id`, `category`, `is_followup`, `edited`. Ids are
modelled as the message's append position (the source uses opaque unique
uuid4 strings). -/
structure Message where
  msgId : Nat
  role : MessageRole
  content : String
  questionId : Option String
  category : Option String
  followupFlag : Option Bool
  edited : Bool
deriving DecidableEq, Repr

/-- A question directive: id, text, category tag and the follow-up flag
(`Question` of the absent `models/conversation.py`; these four fields are
the ones the orchestrator and the claims read). -/
structure Question where
  qid : String
  text : String
  category : String
  isFollowup : Bool
deriving DecidableEq, Repr

/-- Modelled from the spec: the `.value` strings of the enum members of
the absent `models/conversation.py`, lowercase category names. No claim
depends on the exact spelling, only on their being the category's tag. -/
def catValue : ConversationState → String
  | START => "start"
  | FUNCTIONALITY => "functionality"
  | USERS => "users"
  | DEMOGRAPHICS => "demographics"
  | DESIGN => "design"
  | MARKET => "market"
  | TECHNICAL => "technical"
  | REVIEW => "review"
  | COMPLETE => "complete"

/-- The session fields the orchestrator mutates (`Session` of the absent
`models/conversation.py`, fields fixed by their uses in the sources). -/
structure Session where
  state : ConversationState
  status : String
  skippedQuestions : List String
  lastUpdated : ℚ
deriving DecidableEq, Repr

/-- One session's slice of `ConversationService` state: its `Session`
record, its message list, and the shared vector collection. -/
structure ConvState where
  session : Session
  messages : List Message
  ragIndex : List StoredChunk
deriving DecidableEq, Repr

/-- Which optional collaborators the service was constructed with
(`self.question_gen` / `self.rag`; the production singleton passes
both). -/
structure SvcConfig where
  hasQuestionGen : Bool
  hasRag : Bool
deriving DecidableEq, Repr

/-- `_add_message`: append one message with fresh id. -/
def addMessage (st : ConvState) (role : MessageRole) (content : String)
    (questionId category : Option String) (followupFlag : Option Bool) : ConvState :=
  { st with messages :=
      st.messages ++ [⟨st.messages.length, role, content, questionId, category, followupFlag, false⟩] }

/-- The `for msg in reversed(...)` scan of `process_answer`: the content
of the last assistant/system message, if any. -/
def lastQuestionContent (msgs : List Message) : Option String :=
  (msgs.reverse.find? (fun m =>
    decide (m.role = MessageRole.assistant) || decide (m.role = MessageRole.system))).map
    (fun m => m.content)

/-- The `for msg in reversed(...)` scan of `skip_current_question`: the
`question_id` metadata of the last assistant/system message (which may
itself be absent). -/
def lastQuestionId (msgs : List Message) : Option String :=
  match msgs.reverse.find? (fun m =>
      decide (m.role = MessageRole.assistant) || decide (m.role = MessageRole.system)) with
  | some m => m.questionId
  | none => none

/-- `QuestionGenerator.category_templates` has entries for every state
except COMPLETE; `_generate_category_question` returns `None` exactly when
the target state has no templates. -/
def hasCategoryTemplates : ConversationState → Bool
  | COMPLETE => false
  | _ => true

/-- `QuestionGenerator.generate_next_question`, decisive fields only: if
the state after the current one is COMPLETE, return `none` (conversation
over); else a follow-up directive in the current category when
`_needs_followup` fires, otherwise a category-introduction directive for
the next state. Question wording (LLM output or template, including the
LLM-failure fallbacks) is abstracted as `llmText`; ids as `freshQid`. -/
def generateNextQuestion (session : Session) (latestAnswer llmText freshQid : String) :
    Option Question :=
  let nextState := determineNextStateQG (.member session.state)
  if nextState = COMPLETE then
    none
  else if needsFollowup latestAnswer session.state then
    some ⟨freshQid, llmText, catValue session.state, true⟩
  else if hasCategoryTemplates nextState then
    some ⟨freshQid, llmText, catValue nextState, false⟩
  else
    none

/-- Wording of the legacy template questions (no claim reads it). -/
def templateQuestionText (c : ConversationState) : String :=
  "template:" ++ catValue c

/-- Mark a session complete (`session.state = COMPLETE`,
`session.status = "complete"`). -/
def markComplete (st : ConvState) : ConvState :=
  { st with session := { st.session with state := COMPLETE, status := "complete" } }

/-- `ConversationService.process_answer` on an existing session (an
unknown id raises `ValueError` before touching anything; no claim is about
that path). Steps, in source order: append the user message; set
`last_updated`; find the current question; persist the interaction to the
collection when RAG is on and a question exists; retrieval is read-only
and only feeds prompt text, which is abstracted into `llmText`; then
either the `QuestionGenerator` branch or the legacy branch decides the
next question and the state mutation, and a non-`none` question is
appended as an assistant message. -/
def processAnswer (cfg : SvcConfig) (st : ConvState)
    (sessionId answerText llmText freshQid : String) (now : ℚ) :
    ConvState × Option Question :=
  let st1 := addMessage st MessageRole.user answerText none
    (some (catValue st.session.state)) none
  let st2 := { st1 with session := { st1.session with lastUpdated := now } }
  let currentQuestion := lastQuestionContent st2.messages
  let st3 :=
    match cfg.hasRag, currentQuestion with
    | true, some q =>
        { st2 with ragIndex := (persistInteraction st2.ragIndex sessionId q answerText now).2 }
    | _, _ => st2
  if cfg.hasQuestionGen then
    match generateNextQuestion st3.session answerText llmText freshQid with
    | none => (markComplete st3, none)
    | some q =>
        (addMessage st3 MessageRole.assistant q.text (some q.qid) (some q.category)
          (some q.isFollowup), some q)
  else
    if needsFollowupCS answerText then
      let q : Question := ⟨freshQid, llmText, catValue st3.session.state, true⟩
      (addMessage st3 MessageRole.assistant q.text (some q.qid) (some q.category)
        (some q.isFollowup), some q)
    else
      let nextState := getNextStateCS (.member st3.session.state)
      if nextState = COMPLETE then
        (markComplete st3, none)
      else
        let st4 := { st3 with session := { st3.session with state := nextState } }
        let q : Question := ⟨freshQid, templateQuestionText nextState, catValue nextState, false⟩
        (addMessage st4 MessageRole.assistant q.text (some q.qid) (some q.category)
          (some q.isFollowup), some q)

/-- `ConversationService.skip_current_question` on an existing session.
Steps, in source order: read the last question's id and, when present,
append it to `session.skipped_questions`; compute the next state; if it is
COMPLETE, mark the session complete and stop; else commit the new state
and timestamp; then ask the `QuestionGenerator` (with the literal answer
`"[SKIPPED]"`) or fall back to the template question, appending the result
as an assistant message. -/
def skipCurrentQuestion (cfg : SvcConfig) (st : ConvState) (llmText freshQid : String)
    (now : ℚ) : ConvState × Option Question :=
  let st1 :=
    match lastQuestionId st.messages with
    | some qid =>
        { st with session :=
            { st.session with skippedQuestions := st.session.skippedQuestions ++ [qid] } }
    | none => st
  let nextState := getNextStateCS (.member st1.session.state)
  if nextState = COMPLETE then
    (markComplete st1, none)
  else
    let st2 := { st1 with session :=
      { st1.session with state := nextState, lastUpdated := now } }
    if cfg.hasQuestionGen then
      match generateNextQuestion st2.session "[SKIPPED]" llmText freshQid with
      | none => (markComplete st2, none)
      | some q =>
          (addMessage st2 MessageRole.assistant q.text (some q.qid) (some q.category)
            (some q.isFollowup), some q)
    else
      let q : Question := ⟨freshQid, templateQuestionText nextState, catValue nextState, false⟩
      (addMessage st2 MessageRole.assistant q.text (some q.qid) (some q.category)
        (some q.isFollowup), some q)

/-- The message-scan of `edit_previous_answer`: walk the history for the
first user message with the given id; on a hit, return the history with
that message's content replaced and marked edited, the old content, and
the content of the nearest earlier assistant/system message (the
corresponding question). `before` carries the already-visited prefix in
reverse, so `before.find?` is the source's backwards scan. -/
def findEdit (messageId : Nat) (newAnswer : String) :
    List Message → List Message → Option (List Message × String × Option String)
  | _, [] => none
  | before, m :: rest =>
      if m.msgId = messageId ∧ m.role = MessageRole.user then
        some (before.reverse ++ ({ m with content := newAnswer, edited := true } :: rest),
          m.content,
          (before.find? (fun p =>
            decide (p.role = MessageRole.assistant) || decide (p.role = MessageRole.system))).map
            (fun p => p.content))
      else
        findEdit messageId newAnswer (m :: before) rest

/-- `ConversationService.edit_previous_answer` on an existing session:
edit the first user message with the id in place; return `false` (no
mutation) when none matches; update the collection via
`update_interaction` when RAG is on and both the corresponding question
and the old answer are truthy (non-empty); set `last_updated`; return
`true`. -/
def editPreviousAnswer (cfg : SvcConfig) (st : ConvState) (sessionId : String)
    (messageId : Nat) (newAnswer : String) (now : ℚ) : ConvState × Bool :=
  match findEdit messageId newAnswer [] st.messages with
  | none => (st, false)
  | some (msgs2, oldAnswer, correspondingQuestion) =>
      let st1 := { st with messages := msgs2 }
      let st2 :=
        match cfg.hasRag, correspondingQuestion with
        | true, some q =>
            if q ≠ "" ∧ oldAnswer ≠ "" then
              { st1 with ragIndex :=
                  (updateInteraction st1.ragIndex sessionId q oldAnswer newAnswer now).2 }
            else
              st1
        | _, _ => st1
      ({ st2 with session := { st2.session with lastUpdated := now } }, true)

/-- The schema validation of `MessageRequest` in `routes/chat_routes.py`:
`message: str = Field(..., min_length=1)`. FastAPI rejects a failing
request with a validation error before the handler (and hence
`process_answer`) runs. -/
def messageRequestValid (message : String) : Bool :=
  decide (1 ≤ message.length)

/-- The `/api/chat/message` route as far as session mutation goes: a
message failing schema validation never reaches `process_answer` (`false`
stands for the 422 validation response). -/
def sendMessageRoute (cfg : SvcConfig) (st : ConvState)
    (sessionId message llmText freshQid : String) (now : ℚ) : ConvState × Bool :=
  if messageRequestValid message then
    ((processAnswer cfg st sessionId message llmText freshQid now).1, true)
  else
    (st, false)

/-- One mutating orchestrator call on a session. -/
inductive TurnOp where
  | answerOp (sessionId answerText llmText freshQid : String) (now : ℚ)
  | skipOp (llmText freshQid : String) (now : ℚ)
  | editOp (sessionId : String) (messageId : Nat) (newAnswer : String) (now : ℚ)

/-- Apply one mutating call, keeping the post-call state. -/
def applyTurnOp (cfg : SvcConfig) (st : ConvState) : TurnOp → ConvState
  | .answerOp sid a llm qid now => (processAnswer cfg st sid a llm qid now).1
  | .skipOp llm qid now => (skipCurrentQuestion cfg st llm qid now).1
  | .editOp sid mid na now => (editPreviousAnswer cfg st sid mid na now).1

/-- Run a sequence of mutating calls on one session. -/
def runTurnOps (cfg : SvcConfig) (st : ConvState) : List TurnOp → ConvState
  | [] => st
  | op :: ops => runTurnOps cfg (applyTurnOp cfg st op) ops

/-! ### Library lemmas about the sorting, budgeting and deduplication helpers -/

theorem insertLe_perm {α : Type} (le : α → α → Bool) (x : α) :
    ∀ l : List α, List.Perm (insertLe le x l) (x :: l) := by
  intro l
  induction l with
  | nil => simp [insertLe]
  | cons y ys ih =>
      simp only [insertLe]
      split
      · exact List.Perm.refl _
      · exact (ih.cons y).trans (List.Perm.swap x y ys)

theorem sortLe_perm {α : Type} (le : α → α → Bool) :
    ∀ l : List α, List.Perm (sortLe le l) l := by
  intro l
  induction l with
  | nil => simp [sortLe]
  | cons x xs ih => exact (insertLe_perm le x (sortLe le xs)).trans (ih.cons x)

theorem mem_sortLe {α : Type} {le : α → α → Bool} {x : α} {l : List α}
    (h : x ∈ sortLe le l) : x ∈ l :=
  (sortLe_perm le l).mem_iff.mp h

theorem pairwise_insertLe (key : Scored → ℚ) (x : Scored) :
    ∀ l : List Scored, l.Pairwise (fun a b => key b ≤ key a) →
      (insertLe (fun a b => decide (key b ≤ key a)) x l).Pairwise (fun a b => key b ≤ key a) := by
  intro l
  induction l with
  | nil => intro _; simp [insertLe]
  | cons y ys ih =>
      intro h
      rcases List.pairwise_cons.mp h with ⟨hy, hys⟩
      simp only [insertLe]
      split
      · rename_i hle
        refine List.pairwise_cons.mpr ⟨?_, h⟩
        intro z hz
        rcases List.mem_cons.mp hz with rfl | hz
        · exact of_decide_eq_true hle
        · exact le_trans (hy z hz) (of_decide_eq_true hle)
      · rename_i hle
        refine List.pairwise_cons.mpr ⟨?_, ih hys⟩
        intro z hz
        rcases List.mem_cons.mp ((insertLe_perm _ x ys).mem_iff.mp hz) with rfl | hz
        · exact le_of_lt (lt_of_not_le (of_decide_eq_false (Bool.of_not_eq_true hle)))
        · exact hy z hz

theorem pairwise_sortLe (key : Scored → ℚ) :
    ∀ l : List Scored,
      (sortLe (fun a b => decide (key b ≤ key a)) l).Pairwise (fun a b => key b ≤ key a) := by
  intro l
  induction l with
  | nil => simp [sortLe]
  | cons x xs ih => exact pairwise_insertLe key x _ ih

theorem filter_insertLe (key : Scored → ℚ) (s : ℚ) (x : Scored) :
    ∀ l : List Scored,
      (insertLe (fun a b => decide (key b ≤ key a)) x l).filter (fun a => decide (key a = s)) =
        if key x = s then x :: l.filter (fun a => decide (key a = s))
        else l.filter (fun a => decide (key a = s)) := by
  intro l
  induction l with
  | nil =>
      by_cases hx : key x = s <;> simp [insertLe, List.filter, hx]
  | cons y ys ih =>
      simp only [insertLe]
      split
      · rename_i hle
        by_cases hx : key x = s
        · simp [List.filter, hx]
        · simp [List.filter, hx]
      · rename_i hle
        have hxy : key x < key y := lt_of_not_le (of_decide_eq_false (Bool.of_not_eq_true hle))
        by_cases hx : key x = s
        · have hy : key y ≠ s := by
            intro hy
            exact absurd (hy.trans hx.symm) (ne_of_gt hxy)
          simp [List.filter, hy, ih, hx]
        · by_cases hy : key y = s
          · simp [List.filter, hy, ih, hx]
          · simp [List.filter, hy, ih, hx]

theorem filter_sortLe (key : Scored → ℚ) (s : ℚ) :
    ∀ l : List Scored,
      (sortLe (fun a b => decide (key b ≤ key a)) l).filter (fun a => decide (key a = s)) =
        l.filter (fun a => decide (key a = s)) := by
  intro l
  induction l with
  | nil => rfl
  | cons x xs ih =>
      simp only [sortLe]
      rw [filter_insertLe key s x (sortLe _ xs)]
      by_cases hx : key x = s
      · simp [List.filter, hx, ih]
      · simp [List.filter, hx, ih]

theorem selectWithinBudget_sum_le (maxTokens : Nat) :
    ∀ (l : List Scored) (total : Nat),
      ((selectWithinBudget maxTokens l total).map estimateTokens).sum ≤ maxTokens - total := by
  intro l
  induction l with
  | nil => intro total; simp [selectWithinBudget]
  | cons s rest ih =>
      intro total
      simp only [selectWithinBudget]
      split
      · rename_i hfits
        have := ih (total + estimateTokens s.chunk.doc)
        simp only [List.map_cons, List.sum_cons]
        omega
      · simp

theorem mem_selectWithinBudget {maxTokens : Nat} {d : String} :
    ∀ {l : List Scored} {total : Nat}, d ∈ selectWithinBudget maxTokens l total →
      ∃ s, s ∈ l ∧ s.chunk.doc = d := by
  intro l
  induction l with
  | nil => intro total h; simp [selectWithinBudget] at h
  | cons s rest ih =>
      intro total h
      simp only [selectWithinBudget] at h
      split at h
      · rcases List.mem_cons.mp h with h | h
        · exact ⟨s, List.mem_cons_self s rest, h.symm⟩
        · rcases ih h with ⟨t, ht, hd⟩
          exact ⟨t, List.mem_cons_of_mem s ht, hd⟩
      · simp at h

theorem dedupGo_sublist : ∀ (l seen : List String), List.Sublist (dedupGo seen l) l := by
  intro l
  induction l with
  | nil => intro seen; simp [dedupGo]
  | cons c cs ih =>
      intro seen
      simp only [dedupGo]
      split
      · exact (ih seen).trans (List.sublist_cons_self c cs)
      · exact (ih (c :: seen)).cons₂ c

theorem deduplicateChunks_sublist (l : List String) : List.Sublist (deduplicateChunks l) l :=
  dedupGo_sublist l []

theorem sublist_sum_le : ∀ {l₁ l₂ : List Nat}, List.Sublist l₁ l₂ → l₁.sum ≤ l₂.sum := by
  intro l₁ l₂ h
  induction h with
  | slnil => simp
  | cons a _ ih => simp only [List.sum_cons]; omega
  | cons₂ a _ ih => simp only [List.sum_cons]; omega

/-- Total estimated tokens of a retrieval result. -/
def tokenSum (chunks : List String) : Nat :=
  (chunks.map estimateTokens).sum

theorem mem_queryCollection {index : List StoredChunk} {dist : StoredChunk → ℚ}
    {sid : String} {n : Nat} {c : Candidate} (h : c ∈ queryCollection index dist sid n) :
    c.chunk ∈ index ∧ c.chunk.sessionId = sid := by
  unfold queryCollection at h
  have h1 := mem_sortLe (List.take_subset n _ h)
  rcases List.mem_map.mp h1 with ⟨ch, hch, rfl⟩
  rcases List.mem_filter.mp hch with ⟨hmem, hdec⟩
  exact ⟨hmem, of_decide_eq_true hdec⟩

theorem mem_considerationOrder {index : List StoredChunk} {dist : StoredChunk → ℚ}
    {now : ℚ} {sid : String} {topK : Nat} {rw : ℚ} {s : Scored}
    (h : s ∈ considerationOrder index dist now sid topK rw) :
    s.chunk ∈ index ∧ s.chunk.sessionId = sid := by
  unfold considerationOrder at h
  rcases List.mem_map.mp (mem_sortLe h) with ⟨cand, hcand, rfl⟩
  exact mem_queryCollection hcand

theorem mem_retrieveContext {index : List StoredChunk} {dist : StoredChunk → ℚ}
    {now : ℚ} {sid : String} {topK maxTokens : Nat} {rw : ℚ} {d : String}
    (h : d ∈ retrieveContext index dist now sid topK maxTokens rw) :
    ∃ c, c ∈ index ∧ c.sessionId = sid ∧ c.doc = d := by
  unfold retrieveContext at h
  split at h
  · simp at h
  · have h1 := (deduplicateChunks_sublist _).subset h
    rcases mem_selectWithinBudget h1 with ⟨s, hs, hd⟩
    have h2 := mem_considerationOrder (List.take_subset topK _ hs)
    exact ⟨s.chunk, h2.1, h2.2, hd⟩

/-! ### State-shape lemmas for the orchestrator operations -/

theorem addMessage_session (st : ConvState) (r : MessageRole) (c : String)
    (qi cat : Option String) (f : Option Bool) :
    (addMessage st r c qi cat f).session = st.session := rfl

theorem markComplete_state (st : ConvState) : (markComplete st).session.state = COMPLETE := rfl

theorem stateIdx_le_next : ∀ c, stateIdx c ≤ stateIdx (getNextStateCS (.member c)) := by
  intro c
  cases c <;> decide

theorem stateIdx_le_complete : ∀ c, stateIdx c ≤ stateIdx COMPLETE := by
  intro c
  cases c <;> decide

theorem processAnswer_state_shape (cfg : SvcConfig) (st : ConvState)
    (sid a llm qid : String) (now : ℚ) :
    (processAnswer cfg st sid a llm qid now).1.session.state = st.session.state ∨
    (processAnswer cfg st sid a llm qid now).1.session.state = COMPLETE ∨
    (processAnswer cfg st sid a llm qid now).1.session.state =
      getNextStateCS (.member st.session.state) := by
  simp only [processAnswer]
  split
  · split
    · right; left; rfl
    · left
      split <;> rfl
  · split
    · left
      split <;> rfl
    · split
      · right; left; rfl
      · right; right
        split <;> rfl

theorem skip_state_shape (cfg : SvcConfig) (st : ConvState) (llm qid : String) (now : ℚ) :
    (skipCurrentQuestion cfg st llm qid now).1.session.state = COMPLETE ∨
    (skipCurrentQuestion cfg st llm qid now).1.session.state =
      getNextStateCS (.member st.session.state) := by
  simp only [skipCurrentQuestion]
  cases hq : lastQuestionId st.messages <;> simp only [hq]
  all_goals
    split
    · left; rfl
    · split
      · split
        · left; rfl
        · right; rfl
      · right; rfl

theorem edit_state_eq (cfg : SvcConfig) (st : ConvState) (sid : String) (mid : Nat)
    (na : String) (now : ℚ) :
    (editPreviousAnswer cfg st sid mid na now).1.session.state = st.session.state := by
  simp only [editPreviousAnswer]
  split
  · rfl
  · split
    · split <;> rfl
    · rfl

theorem applyTurnOp_state_mono (cfg : SvcConfig) (st : ConvState) (op : TurnOp) :
    stateIdx st.session.state ≤ stateIdx (applyTurnOp cfg st op).session.state := by
  cases op with
  | answerOp sid a llm qid now =>
      rcases processAnswer_state_shape cfg st sid a llm qid now with h | h | h
      · simp only [applyTurnOp, h]
        exact le_refl _
      · simp only [applyTurnOp, h]
        exact stateIdx_le_complete _
      · simp only [applyTurnOp, h]
        exact stateIdx_le_next _
  | skipOp llm qid now =>
      rcases skip_state_shape cfg st llm qid now with h | h
      · simp only [applyTurnOp, h]
        exact stateIdx_le_complete _
      · simp only [applyTurnOp, h]
        exact stateIdx_le_next _
  | editOp sid mid na now =>
      simp only [applyTurnOp, edit_state_eq]
      exact le_refl _

theorem runTurnOps_state_mono (cfg : SvcConfig) :
    ∀ (ops : List TurnOp) (st : ConvState),
      stateIdx st.session.state ≤ stateIdx (runTurnOps cfg st ops).session.state := by
  intro ops
  induction ops with
  | nil => intro st; simp [runTurnOps]
  | cons op rest ih =>
      intro st
      exact le_trans (applyTurnOp_state_mono cfg st op) (ih (applyTurnOp cfg st op))

/-- C2: for every category `c` in the fixed order, the next-state function
returns the category immediately following `c`, and COMPLETE when `c` is
COMPLETE (`next(COMPLETE) = COMPLETE`); the question generator's
next-state function agrees on every enumeration member; and along any
sequence of answer/skip/edit operations on a session, the index of the
session's category in the fixed order never decreases. -/
theorem C2_category_monotonicity :
    (getNextStateCS (.member START) = FUNCTIONALITY ∧
     getNextStateCS (.member FUNCTIONALITY) = USERS ∧
     getNextStateCS (.member USERS) = DEMOGRAPHICS ∧
     getNextStateCS (.member DEMOGRAPHICS) = DESIGN ∧
     getNextStateCS (.member DESIGN) = MARKET ∧
     getNextStateCS (.member MARKET) = TECHNICAL ∧
     getNextStateCS (.member TECHNICAL) = REVIEW ∧
     getNextStateCS (.member REVIEW) = COMPLETE ∧
     getNextStateCS (.member COMPLETE) = COMPLETE) ∧
    (∀ c, determineNextStateQG (.member c) = getNextStateCS (.member c)) ∧
    (∀ (cfg : SvcConfig) (st : ConvState) (ops : List TurnOp),
      stateIdx st.session.state ≤ stateIdx (runTurnOps cfg st ops).session.state) := by
  refine ⟨by decide, ?_, ?_⟩
  · intro c
    cases c <;> rfl
  · intro cfg st ops
    exact runTurnOps_state_mono cfg ops st

/-- C8 counterexample: on a value outside the enumeration,
`ConversationService._get_next_state` returns COMPLETE, not the first
category START that the claim asserts (its `except ValueError:` block only
logs and control falls through to `return ConversationState.COMPLETE`). -/
theorem C8_counterexample :
    getNextStateCS (.outside "bogus") ≠ START ∧
    getNextStateCS (.outside "bogus") = COMPLETE := by
  exact ⟨by decide, rfl⟩

/-- C8 amended: both next-state functions are total and never raise for a
value outside the enumeration, but only the question generator's
`_determine_next_state` resets to START; the conversation service's
`_get_next_state` falls through to COMPLETE. -/
theorem C8_unknown_state_fallback (s : String) :
    determineNextStateQG (.outside s) = START ∧ getNextStateCS (.outside s) = COMPLETE :=
  ⟨rfl, rfl⟩

/-- C3: `_needs_followup` is a pure function of the answer text and the
category, equal (pointwise) to the spec's rule: false for REVIEW,
otherwise true exactly when the word count is under the threshold 10 or
the lowercased answer contains one of the seven hedge markers as a
substring. -/
theorem C3_followup_rule (answer : String) (c : ConversationState) :
    needsFollowup answer c = needsFollowupSpec answer c := by
  have hany : ∀ p : String → Bool, vagueIndicators.any p =
      ["not sure", "maybe", "i don't know", "whatever", "doesn't matter", "possibly",
        "anything"].any p := by
    intro p
    simp only [vagueIndicators, List.any_cons, List.any_nil, Bool.or_false]
    cases p "i don't know" <;> cases p "not sure" <;> cases p "maybe" <;>
      cases p "possibly" <;> cases p "whatever" <;> cases p "anything" <;>
      cases p "doesn't matter" <;> rfl
  unfold needsFollowup needsFollowupSpec minAnswerWords
  rw [hany]
  by_cases hc : c = REVIEW
  · simp [hc]
  · by_cases hw : wordCount answer < 10
    · simp [hc, hw]
    · cases hA : (["not sure", "maybe", "i don't know", "whatever", "doesn't matter",
        "possibly", "anything"].any (fun m => strContains m (lowerStr answer))) <;>
        simp [hc, hw, hA]

/-- C5: the sum over the returned chunks of the token estimate
`len(text) / 4` never exceeds the supplied `max_tokens`, for every
retrieval call. -/
theorem C5_token_budget (index : List StoredChunk) (dist : StoredChunk → ℚ) (now : ℚ)
    (sessionId : String) (topK maxTokens : Nat) (recencyWeight : ℚ) :
    tokenSum (retrieveContext index dist now sessionId topK maxTokens recencyWeight) ≤
      maxTokens := by
  unfold retrieveContext tokenSum
  split
  · simp
  · have h1 := selectWithinBudget_sum_le maxTokens
      ((considerationOrder index dist now sessionId topK recencyWeight).take topK) 0
    have h2 := sublist_sum_le ((deduplicateChunks_sublist
      (selectWithinBudget maxTokens
        ((considerationOrder index dist now sessionId topK recencyWeight).take topK) 0)).map
      estimateTokens)
    omega

/-- C1: session isolation of retrieval. Every chunk text returned by
`retrieve_context` for session `a` comes from a chunk stored under
session id `a`; `persist_interaction` and `update_interaction` only add
chunks stamped with the session id they were called with; and therefore
no chunk stored under a different session `b` (with content distinct from
`a`'s) ever appears in the result, for any query (any distance
function). -/
theorem C1_session_isolation :
    (∀ (index : List StoredChunk) (dist : StoredChunk → ℚ) (now : ℚ) (a : String)
        (topK maxTokens : Nat) (rw : ℚ) (d : String),
        d ∈ retrieveContext index dist now a topK maxTokens rw →
        ∃ c, c ∈ index ∧ c.sessionId = a ∧ c.doc = d) ∧
    (∀ (index : List StoredChunk) (sid q ans : String) (t : ℚ) (c : StoredChunk),
        c ∈ (persistInteraction index sid q ans t).2 → c ∈ index ∨ c.sessionId = sid) ∧
    (∀ (index : List StoredChunk) (sid q oldA newA : String) (t : ℚ) (c : StoredChunk),
        c ∈ (updateInteraction index sid q oldA newA t).2 → c ∈ index ∨ c.sessionId = sid) ∧
    (∀ (index : List StoredChunk) (dist : StoredChunk → ℚ) (now : ℚ) (a b : String)
        (topK maxTokens : Nat) (rw : ℚ) (c : StoredChunk),
        a ≠ b → c ∈ index → c.sessionId = b →
        (∀ c', c' ∈ index → c'.sessionId = a → c'.doc ≠ c.doc) →
        c.doc ∉ retrieveContext index dist now a topK maxTokens rw) := by
  refine ⟨?_, ?_, ?_, ?_⟩
  · intro index dist now a topK maxTokens rw d h
    exact mem_retrieveContext h
  · intro index sid q ans t c h
    simp only [persistInteraction] at h
    rcases List.mem_append.mp h with h | h
    · exact Or.inl h
    · right
      rcases List.mem_singleton.mp h with rfl
      rfl
  · intro index sid q oldA newA t c h
    simp only [updateInteraction] at h
    split at h
    · exact Or.inl h
    · split at h
      · exact Or.inl h
      · rcases List.mem_append.mp h with h | h
        · exact Or.inl (List.mem_filter.mp h).1
        · right
          rcases List.mem_singleton.mp h with rfl
          rfl
  · intro index dist now a b topK maxTokens rw c hab hc hcb hdistinct h
    rcases mem_retrieveContext h with ⟨c', hc', hc'a, hc'doc⟩
    exact hdistinct c' hc' hc'a hc'doc

/-- Witness for C1 at a concrete one-chunk store: retrieval for session
`A` returns the persisted document, and the theorem produces its source
chunk. -/
theorem C1_session_isolation_witness :
    ∃ c, c ∈ [StoredChunk.mk "id1" "A" "Q: q\nA: a" 0] ∧ c.sessionId = "A" ∧
      c.doc = "Q: q\nA: a" :=
  C1_session_isolation.1 [StoredChunk.mk "id1" "A" "Q: q\nA: a" 0]
    (fun _ => 0) 0 "A" 5 100 0 "Q: q\nA: a" (by decide)

theorem strContains_append_self (pre s : String) : strContains s (pre ++ s) = true := by
  unfold strContains
  rw [List.any_eq_true]
  refine ⟨s.toList, ?_, ?_⟩
  · rw [List.mem_tails]
    show s.data <:+ (pre ++ s).data
    rw [String.data_append]
    exact List.suffix_append pre.data s.data
  · exact List.isPrefixOf_iff_prefix.mpr (List.prefix_refl _)

/-- The ordering claim C6 asserts for ties: score descending and, on
equal scores, the newer chunk (larger timestamp) first. -/
def newerFirstOrder (l : List Scored) : List Scored :=
  sortLe (fun a b =>
    decide (b.score < a.score) ||
      (decide (a.score = b.score) && decide (b.chunk.timestamp ≤ a.chunk.timestamp))) l

/-- C6 counterexample: two session chunks tie at score 7/10 (the older one
is nearer in embedding space, the newer one fresher), yet the
consideration order keeps the older chunk `"a"` first — Python's stable
sort preserves the query order on ties instead of putting the newer chunk
first, which the newer-first reference order would require. -/
theorem C6_counterexample :
    ((considerationOrder
        [StoredChunk.mk "a" "s" "docA" 0, StoredChunk.mk "b" "s" "docB" (345600 / 7)]
        (fun c => if c.chunkId = "a" then 1 / 10 else 3 / 10) 86400 "s" 5 (1 / 2)).map
        (fun x => x.chunk.chunkId) = ["a", "b"]) ∧
    ((newerFirstOrder (considerationOrder
        [StoredChunk.mk "a" "s" "docA" 0, StoredChunk.mk "b" "s" "docB" (345600 / 7)]
        (fun c => if c.chunkId = "a" then 1 / 10 else 3 / 10) 86400 "s" 5 (1 / 2))).map
        (fun x => x.chunk.chunkId) = ["b", "a"]) ∧
    (scoreCandidate 86400 (1 / 2) ⟨StoredChunk.mk "a" "s" "docA" 0, 1 / 10⟩).score =
      (scoreCandidate 86400 (1 / 2)
        ⟨StoredChunk.mk "b" "s" "docB" (345600 / 7), 3 / 10⟩).score ∧
    (0 : ℚ) < 345600 / 7 := by
  refine ⟨by decide, by decide, by decide, by decide⟩

/-- C6 amended: every candidate is scored by
`(1 - recency_weight) * (1 - distance) + recency_weight *
(1 / (1 + age_hours / 24))`; before the budget loop the candidates are
considered in descending order of this score; but ties keep the order in
which the (distance-ascending, session-filtered) index query returned the
candidates — a stable sort — rather than newer-first. -/
theorem C6_ranking (index : List StoredChunk) (dist : StoredChunk → ℚ) (now : ℚ)
    (sid : String) (topK : Nat) (rw : ℚ) :
    (∀ c : Candidate, (scoreCandidate now rw c).chunk = c.chunk ∧
      (scoreCandidate now rw c).score =
        (1 - rw) * (1 - c.distance) +
          rw * (1 / (1 + ((now - c.chunk.timestamp) / 3600) / 24))) ∧
    (considerationOrder index dist now sid topK rw).Pairwise
      (fun a b => b.score ≤ a.score) ∧
    List.Perm (considerationOrder index dist now sid topK rw)
      ((queryCollection index dist sid (min (topK * 2) 50)).map (scoreCandidate now rw)) ∧
    (∀ s : ℚ,
      (considerationOrder index dist now sid topK rw).filter
          (fun x => decide (x.score = s)) =
        ((queryCollection index dist sid (min (topK * 2) 50)).map
          (scoreCandidate now rw)).filter (fun x => decide (x.score = s))) := by
  refine ⟨fun c => ⟨rfl, rfl⟩, ?_, ?_, ?_⟩
  · exact pairwise_sortLe (fun x => x.score) _
  · exact sortLe_perm _ _
  · intro s
    exact filter_sortLe (fun x => x.score) s _

/-- C7 counterexample: with the same Q/A pair persisted twice in a
session, `update_interaction` succeeds but deletes only the first match,
so a later retrieval still surfaces the old answer verbatim for that
question. -/
theorem C7_counterexample :
    (updateInteraction
        [StoredChunk.mk "c1" "s" "Q: q\nA: alpha" 0, StoredChunk.mk "c2" "s" "Q: q\nA: alpha" 0]
        "s" "q" "alpha" "beta" 1).1 = true ∧
    "Q: q\nA: alpha" ∈ retrieveContext
        (updateInteraction
          [StoredChunk.mk "c1" "s" "Q: q\nA: alpha" 0,
            StoredChunk.mk "c2" "s" "Q: q\nA: alpha" 0]
          "s" "q" "alpha" "beta" 1).2
        (fun _ => 0) 1 "s" 5 1000 0 ∧
    strContains "alpha" "Q: q\nA: alpha" = true := by
  refine ⟨by decide, by decide, by decide⟩

/-- C7 amended: `update_interaction` returns `false` and leaves the
collection unchanged when no session chunk's document contains the
question; when some chunk matches, the first such chunk is deleted and
exactly one new chunk built from the question and the new answer (which
that chunk's document contains) is appended; and retrieval thereafter
surfaces the old answer verbatim only if some remaining session chunk
still contains it. -/
theorem C7_update_replaces (index : List StoredChunk) (sid q oldA newA : String) (t : ℚ) :
    ((index.filter (fun c => decide (c.sessionId = sid))).find?
        (fun c => strContains q c.doc) = none →
      updateInteraction index sid q oldA newA t = (false, index)) ∧
    (∀ target, (index.filter (fun c => decide (c.sessionId = sid))).find?
        (fun c => strContains q c.doc) = some target →
      updateInteraction index sid q oldA newA t =
        (true, index.filter (fun c => decide (c.chunkId ≠ target.chunkId)) ++
          [StoredChunk.mk (sid ++ "_" ++ toString t ++ "_edited") sid
            (combinedText q newA) t])) ∧
    (∀ (dist : StoredChunk → ℚ) (now : ℚ) (topK maxT : Nat) (rw : ℚ) (d : String),
      (∀ c, c ∈ (updateInteraction index sid q oldA newA t).2 → c.sessionId = sid →
        strContains oldA c.doc = false) →
      d ∈ retrieveContext (updateInteraction index sid q oldA newA t).2 dist now sid
        topK maxT rw →
      strContains oldA d = false) ∧
    strContains newA (combinedText q newA) = true := by
  refine ⟨?_, ?_, ?_, ?_⟩
  · intro h
    simp only [updateInteraction]
    split
    · rfl
    · rw [h]
  · intro target h
    simp only [updateInteraction]
    split
    · rename_i hempty
      rw [List.isEmpty_iff.mp hempty] at h
      simp at h
    · rw [h]
  · intro dist now topK maxT rw d hclean hd
    rcases mem_retrieveContext hd with ⟨c, hc, hcs, hcd⟩
    rw [← hcd]
    exact hclean c hc hcs
  · exact strContains_append_self ("Q: " ++ q ++ "\nA: ") newA

/-- Witness for C7 at a one-chunk store: the update succeeds, replaces the
chunk, and the old answer is no longer contained in any retrieved text. -/
theorem C7_update_replaces_witness :
    updateInteraction [StoredChunk.mk "c1" "s" "Q: q\nA: alpha" 0] "s" "q" "alpha" "beta" 1 =
      (true, [StoredChunk.mk ("s" ++ "_" ++ toString (1 : ℚ) ++ "_edited") "s"
        (combinedText "q" "beta") 1]) ∧
    strContains "alpha" "Q: q\nA: beta" = false := by
  constructor
  · exact ((C7_update_replaces [StoredChunk.mk "c1" "s" "Q: q\nA: alpha" 0]
      "s" "q" "alpha" "beta" 1).2.1 (StoredChunk.mk "c1" "s" "Q: q\nA: alpha" 0)
      (by decide)).trans (by decide)
  · exact (C7_update_replaces [StoredChunk.mk "c1" "s" "Q: q\nA: alpha" 0]
      "s" "q" "alpha" "beta" 1).2.2.1 (fun _ => 0) 1 5 1000 0 "Q: q\nA: beta"
      (by decide) (by decide)

/-- C4 counterexample: with the production configuration (question
generator present), skipping from START appends the last question's id
`"q-0"` — not the category id — to `skipped_questions`, and the question
produced after the skip is a follow-up (`is_followup = true`), because the
placeholder answer `"[SKIPPED]"` is below the word threshold; moreover
skipping from TECHNICAL advances two steps (straight to COMPLETE), not
one. -/
theorem C4_counterexample :
    ((skipCurrentQuestion ⟨true, true⟩
        ⟨⟨START, "active", [], 0⟩,
          [⟨0, MessageRole.system, "intro question", some "q-0", some "start", none, false⟩],
          []⟩ "llm" "q-1" 5).2.map Question.isFollowup = some true) ∧
    ((skipCurrentQuestion ⟨true, true⟩
        ⟨⟨START, "active", [], 0⟩,
          [⟨0, MessageRole.system, "intro question", some "q-0", some "start", none, false⟩],
          []⟩ "llm" "q-1" 5).1.session.skippedQuestions = ["q-0"]) ∧
    ("q-0" ≠ catValue START) ∧
    ((skipCurrentQuestion ⟨true, true⟩
        ⟨⟨TECHNICAL, "active", [], 0⟩,
          [⟨0, MessageRole.system, "tech question", some "q-6", some "technical", none, false⟩],
          []⟩ "llm" "q-1" 5).1.session.state = COMPLETE) ∧
    stateIdx COMPLETE = stateIdx TECHNICAL + 2 := by
  refine ⟨by decide, by decide, by decide, by decide, by decide⟩

/-- C4 amended: skip always appends the last question's id (when one
exists) to `skipped_questions` — never the category id. With the question
generator: from REVIEW or COMPLETE the session is marked complete with no
question; from TECHNICAL the session jumps two steps to COMPLETE; from any
earlier category the state advances exactly one step but the produced
directive is a follow-up (`is_followup = true`) in the new category.
Only the template fallback path (no question generator) produces a
category introduction (`is_followup = false`). -/
theorem C4_skip_semantics (hr : Bool) (st : ConvState) (llm qid : String) (now : ℚ) :
    ((skipCurrentQuestion ⟨true, hr⟩ st llm qid now).1.session.skippedQuestions =
      st.session.skippedQuestions ++ (lastQuestionId st.messages).toList) ∧
    (st.session.state = REVIEW ∨ st.session.state = COMPLETE →
      (skipCurrentQuestion ⟨true, hr⟩ st llm qid now).1.session.state = COMPLETE ∧
      (skipCurrentQuestion ⟨true, hr⟩ st llm qid now).2 = none) ∧
    (st.session.state = TECHNICAL →
      (skipCurrentQuestion ⟨true, hr⟩ st llm qid now).1.session.state = COMPLETE ∧
      (skipCurrentQuestion ⟨true, hr⟩ st llm qid now).2 = none) ∧
    (stateIdx st.session.state ≤ 5 →
      (skipCurrentQuestion ⟨true, hr⟩ st llm qid now).1.session.state =
        getNextStateCS (.member st.session.state) ∧
      (skipCurrentQuestion ⟨true, hr⟩ st llm qid now).2 =
        some ⟨qid, llm, catValue (getNextStateCS (.member st.session.state)), true⟩) ∧
    (getNextStateCS (.member st.session.state) ≠ COMPLETE →
      (skipCurrentQuestion ⟨false, hr⟩ st llm qid now).2 =
        some ⟨qid, templateQuestionText (getNextStateCS (.member st.session.state)),
          catValue (getNextStateCS (.member st.session.state)), false⟩) := by
  have hnext : ∀ c, getNextStateCS (.member c) = stateSucc c := by
    intro c; cases c <;> rfl
  have hgen : ∀ (s : Session) (llm qid : String),
      generateNextQuestion s "[SKIPPED]" llm qid =
        if s.state = REVIEW ∨ s.state = COMPLETE then none
        else some ⟨qid, llm, catValue s.state, true⟩ := by
    intro s llm qid
    obtain ⟨state, status, sk, lu⟩ := s
    cases state <;> rfl
  obtain ⟨⟨state, status, skipped, lu⟩, msgs, rag⟩ := st
  refine ⟨?_, ?_, ?_, ?_, ?_⟩
  · cases state <;> cases hq : lastQuestionId msgs <;>
      simp [skipCurrentQuestion, hq, hnext, stateSucc, hgen, markComplete, addMessage]
  · intro h
    rcases h with h | h <;> simp only at h <;> subst h <;>
      cases hq : lastQuestionId msgs <;>
      simp [skipCurrentQuestion, hq, hnext, stateSucc, hgen, markComplete]
  · intro h
    simp only at h
    subst h
    cases hq : lastQuestionId msgs <;>
      simp [skipCurrentQuestion, hq, hnext, stateSucc, hgen, markComplete]
  · cases state <;> intro h <;>
      first
        | (exfalso; dsimp only at h; revert h; decide)
        | (cases hq : lastQuestionId msgs <;>
            simp [skipCurrentQuestion, hq, hnext, stateSucc, hgen, markComplete,
              addMessage, catValue])
  · cases state <;> intro h <;>
      first
        | exact absurd rfl h
        | (cases hq : lastQuestionId msgs <;>
            simp [skipCurrentQuestion, hq, hnext, stateSucc, markComplete, addMessage,
              catValue, templateQuestionText])

/-- Witness for C4's amended statement: skipping from START with the
question generator advances one step and returns a follow-up directive. -/
theorem C4_skip_semantics_witness :
    (skipCurrentQuestion ⟨true, true⟩
        ⟨⟨START, "active", [], 0⟩,
          [⟨0, MessageRole.system, "intro question", some "q-0", some "start", none, false⟩],
          []⟩ "llm" "q-1" 5).1.session.state = getNextStateCS (.member START) ∧
    (skipCurrentQuestion ⟨true, true⟩
        ⟨⟨START, "active", [], 0⟩,
          [⟨0, MessageRole.system, "intro question", some "q-0", some "start", none, false⟩],
          []⟩ "llm" "q-1" 5).2 =
      some ⟨"q-1", "llm", catValue (getNextStateCS (.member START)), true⟩ :=
  (C4_skip_semantics true
    ⟨⟨START, "active", [], 0⟩,
      [⟨0, MessageRole.system, "intro question", some "q-0", some "start", none, false⟩],
      []⟩ "llm" "q-1" 5).2.2.2.1 (by decide)

/-- C9 counterexample: `process_answer` has no completed-session guard.
On a session whose status is `"complete"` (state COMPLETE) it appends the
user message and persists a chunk to the index before discovering the
conversation is over — the call is not rejected and the state is
mutated. -/
theorem C9_counterexample :
    ((processAnswer ⟨true, true⟩
        ⟨⟨COMPLETE, "complete", [], 0⟩,
          [⟨0, MessageRole.system, "closing question", some "q-9", some "complete", none, false⟩],
          []⟩ "s" "some extra detail" "llm" "q-1" 5).1.messages.length = 2) ∧
    ((processAnswer ⟨true, true⟩
        ⟨⟨COMPLETE, "complete", [], 0⟩,
          [⟨0, MessageRole.system, "closing question", some "q-9", some "complete", none, false⟩],
          []⟩ "s" "some extra detail" "llm" "q-1" 5).1.ragIndex.length = 1) ∧
    ((processAnswer ⟨true, true⟩
        ⟨⟨COMPLETE, "complete", [], 0⟩,
          [⟨0, MessageRole.system, "closing question", some "q-9", some "complete", none, false⟩],
          []⟩ "s" "some extra detail" "llm" "q-1" 5).1.session.lastUpdated = 5) := by
  refine ⟨by decide, by decide, by decide⟩

/-- C9 amended: no InvalidTransition rejection exists. With the question
generator, `process_answer` on a COMPLETE session still appends the user
message (and updates `last_updated`) before returning `None` with the
session left complete; `skip` on a COMPLETE session appends no message but
still records the last question id in `skipped_questions` and returns
`None`. -/
theorem C9_complete_session_mutation (hr : Bool) (st : ConvState)
    (sid a llm qid : String) (now : ℚ) (h : st.session.state = COMPLETE) :
    ((processAnswer ⟨true, hr⟩ st sid a llm qid now).2 = none) ∧
    ((processAnswer ⟨true, hr⟩ st sid a llm qid now).1.session.state = COMPLETE) ∧
    ((processAnswer ⟨true, hr⟩ st sid a llm qid now).1.session.status = "complete") ∧
    ((processAnswer ⟨true, hr⟩ st sid a llm qid now).1.messages.length =
      st.messages.length + 1) ∧
    ((skipCurrentQuestion ⟨true, hr⟩ st llm qid now).2 = none) ∧
    ((skipCurrentQuestion ⟨true, hr⟩ st llm qid now).1.messages = st.messages) ∧
    ((skipCurrentQuestion ⟨true, hr⟩ st llm qid now).1.session.skippedQuestions =
      st.session.skippedQuestions ++ (lastQuestionId st.messages).toList) := by
  obtain ⟨⟨state, status, skipped, lu⟩, msgs, rag⟩ := st
  dsimp only at h
  subst h
  have hgenC : ∀ (s : Session) (ans llm qid : String), s.state = COMPLETE →
      generateNextQuestion s ans llm qid = none := by
    intro s ans llm qid hs
    obtain ⟨state, stt, sk, l⟩ := s
    dsimp only at hs
    subst hs
    rfl
  refine ⟨?_, ?_, ?_, ?_, ?_, ?_, ?_⟩ <;>
    simp only [processAnswer, skipCurrentQuestion] <;>
    cases hr <;>
    (repeat' split) <;>
    simp_all [markComplete, addMessage, persistInteraction, hgenC] <;>
    exact absurd rfl (by assumption)

/-- Witness for C9's amended statement at a concrete complete session. -/
theorem C9_complete_session_mutation_witness :
    (processAnswer ⟨true, true⟩
        ⟨⟨COMPLETE, "complete", [], 0⟩,
          [⟨0, MessageRole.system, "closing question", some "q-9", some "complete", none, false⟩],
          []⟩ "s" "hello there" "llm" "q-1" 5).2 = none :=
  (C9_complete_session_mutation true
    ⟨⟨COMPLETE, "complete", [], 0⟩,
      [⟨0, MessageRole.system, "closing question", some "q-9", some "complete", none, false⟩],
      []⟩ "s" "hello there" "llm" "q-1" 5 rfl).1

/-- C10 counterexample: a whitespace-only answer is not rejected anywhere.
It passes the route schema (`min_length=1` counts the space), and
`process_answer` appends the user message, generates a follow-up (the
blank answer is under the word threshold), appends it too, persists a
chunk, and bumps `last_updated` — state mutates everywhere the claim says
it must not. -/
theorem C10_counterexample :
    " ".data.all Char.isWhitespace = true ∧
    messageRequestValid " " = true ∧
    ((processAnswer ⟨true, true⟩
        ⟨⟨START, "active", [], 0⟩,
          [⟨0, MessageRole.system, "intro question", some "q-0", some "start", none, false⟩],
          []⟩ "s" " " "llm" "q-1" 5).1.messages.length = 3) ∧
    ((processAnswer ⟨true, true⟩
        ⟨⟨START, "active", [], 0⟩,
          [⟨0, MessageRole.system, "intro question", some "q-0", some "start", none, false⟩],
          []⟩ "s" " " "llm" "q-1" 5).1.ragIndex.length = 1) ∧
    ((processAnswer ⟨true, true⟩
        ⟨⟨START, "active", [], 0⟩,
          [⟨0, MessageRole.system, "intro question", some "q-0", some "start", none, false⟩],
          []⟩ "s" " " "llm" "q-1" 5).1.session.lastUpdated = 5) := by
  refine ⟨by decide, by decide, by decide, by decide, by decide⟩

/-- C10 amended: the only blank-answer validation is the route schema's
`min_length=1`, which rejects exactly the empty string — before
`process_answer` runs, so an empty answer causes no mutation; any
non-empty answer (whitespace-only included) reaches `process_answer`,
which performs no blank check and always appends the user message. -/
theorem C10_blank_validation (cfg : SvcConfig) (st : ConvState)
    (sid llm qid : String) (now : ℚ) :
    (∀ m : String, messageRequestValid m = false ↔ m = "") ∧
    (sendMessageRoute cfg st sid "" llm qid now = (st, false)) ∧
    (∀ a : String, messageRequestValid a = true →
      sendMessageRoute cfg st sid a llm qid now =
        ((processAnswer cfg st sid a llm qid now).1, true)) ∧
    (∀ a : String, st.messages.length + 1 ≤
      (processAnswer cfg st sid a llm qid now).1.messages.length) := by
  refine ⟨?_, ?_, ?_, ?_⟩
  · intro m
    obtain ⟨data⟩ := m
    cases data <;> simp [messageRequestValid, String.length, String.ext_iff]
  · rfl
  · intro a ha
    simp [sendMessageRoute, ha]
  · intro a
    simp only [processAnswer]
    (repeat' split) <;>
      simp [markComplete, addMessage, persistInteraction]

/-- Witness for C10's amended statement: a non-empty message reaches
`process_answer` through the route. -/
theorem C10_blank_validation_witness :
    sendMessageRoute ⟨true, true⟩
        ⟨⟨START, "active", [], 0⟩,
          [⟨0, MessageRole.system, "intro question", some "q-0", some "start", none, false⟩],
          []⟩ "s" "hi" "llm" "q-1" 5 =
      ((processAnswer ⟨true, true⟩
        ⟨⟨START, "active", [], 0⟩,
          [⟨0, MessageRole.system, "intro question", some "q-0", some "start", none, false⟩],
          []⟩ "s" "hi" "llm" "q-1" 5).1, true) :=
  (C10_blank_validation ⟨true, true⟩
    ⟨⟨START, "active", [], 0⟩,
      [⟨0, MessageRole.system, "intro question", some "q-0", some "start", none, false⟩],
      []⟩ "s" "llm" "q-1" 5).2.2.1 "hi" (by decide)
